import Mathlib

/-!
Shallow embedding of the Avro archival subsystem of `esque`
(`src/esque/avromessage.py`): the schema-aware writer that splits a
message stream into schema-homogeneous segments, and the reader that
reconstructs messages from the archive.

External collaborators (schema registry client, the Avro binary codec
`fastavro.schemaless_reader`, `json.dumps`, `confluent_kafka.avro.loads`)
are opaque parameters collected in `AvroEnv`.  Bytes are `Fin 256`.
Python `None` is `Option.none`; a Python exception is the `Except.error`
branch.  All state changes of `AvroFileWriter.write_message_to_file`
happen after both `decode_bytes` calls in the source, so the `Except`
encoding (error ⇒ no state change, no record) is faithful.
-/

namespace Esque

/-- A byte of a Kafka payload. -/
abbrev Byte := Fin 256

/-- A polled Kafka message: `message.key()` and `message.value()`,
each possibly `None`. -/
structure RawMessage where
  key : Option (List Byte)
  value : Option (List Byte)
deriving DecidableEq

/-- Errors raised on the write path.  `struct.unpack` on a short buffer
raises; the spec calls this MalformedWireFormat. -/
inductive WireError where
  | malformedWireFormat
deriving DecidableEq

/-- Errors raised on the read path.  A missing segment directory makes
`read_text` raise; the spec calls this SegmentMissing. -/
inductive ReadError where
  | segmentMissing
deriving DecidableEq

/-- The external collaborators, opaque to this subsystem:
`originalSchema i` and `parsedSchema i` are the two fields of
`schema_registry_client.get_schema_from_id(i)`; `avroRead` is
`fastavro.schemaless_reader`; `jsonDumps` is `json.dumps`;
`loadSchema` is `confluent_kafka.avro.loads`. -/
structure AvroEnv (S V J T : Type) where
  originalSchema : Int → J
  parsedSchema : Int → S
  avroRead : S → List Byte → V
  jsonDumps : J → String
  loadSchema : String → T

/-- `DecodedAvroMessage` from the source. -/
structure DecodedAvroMessage (V : Type) where
  key : Option V
  value : Option V
  key_schema_id : Int
  value_schema_id : Int

/-- One pickled record of the archive stream: the dict
`{"key": ..., "value": ..., "schema_directory_name": ...}`. -/
structure ArchiveRecord (V : Type) where
  key : Option V
  value : Option V
  schema_directory_name : String
deriving DecidableEq

/-- Everything `write_message_to_file` persists when it opens a segment:
the directory name, the value the counter yielded, both schema ids and
the two schema documents written to `key_schema.avsc` /
`value_schema.avsc`. -/
structure SegmentInfo where
  name : String
  seq : Nat
  key_schema_id : Int
  value_schema_id : Int
  key_schema_doc : String
  value_schema_doc : String
deriving DecidableEq

/-- The mutable fields of `AvroFileWriter`: `current_key_schema_id`,
`current_value_schema_id`, `schema_dir_name` (all initially `None`) and
the `itertools.count(1)` counter, represented by the value its next
`next()` call returns. -/
structure WriterState where
  current_key_schema_id : Option Int
  current_value_schema_id : Option Int
  schema_dir_name : Option String
  schema_version : Nat
deriving DecidableEq

/-- `AvroFileWriter.__init__`: all current fields `None`, counter at 1. -/
def initState : WriterState := ⟨none, none, none, 1⟩

/-- `extract_schema_id`: `struct.unpack(">bI", message[:5])` — byte 0 is
the (ignored, signed) format marker, bytes 1–4 the big-endian unsigned
32-bit schema id; fewer than 5 bytes raise `struct.error`. -/
def extract_schema_id (message : List Byte) : Except WireError Int :=
  match message with
  | _ :: b1 :: b2 :: b3 :: b4 :: _ =>
      .ok ((((b1.val * 256 + b2.val) * 256 + b3.val) * 256 + b4.val : Nat) : Int)
  | _ => .error .malformedWireFormat

/-- The big-endian 32-bit value of bytes 1–4, as extract_schema_id reads it. -/
def be32 (b1 b2 b3 b4 : Byte) : Int :=
  (((b1.val * 256 + b2.val) * 256 + b3.val) * 256 + b4.val : Nat)

variable {S V J T : Type}

/-- `AvroFileWriter.decode_bytes`.  Besides the source's
`(schema_id, record)` result we return the list of schema ids passed to
`get_schema_from_id` during the call, to reason about resolver
invocations. -/
def decode_bytes (env : AvroEnv S V J T) (raw_data : Option (List Byte)) :
    Except WireError (Int × Option V × List Int) :=
  match raw_data with
  | none => .ok (-1, none, [])
  | some data =>
    match extract_schema_id (data.take 5) with
    | .error e => .error e
    | .ok schema_id =>
        .ok (schema_id, some (env.avroRead (env.parsedSchema schema_id) (data.drop 5)),
             [schema_id])

/-- `AvroFileWriter.schema_changed`. -/
def schema_changed (st : WriterState) (decoded_message : DecodedAvroMessage V) : Bool :=
  (st.current_value_schema_id != some decoded_message.value_schema_id
      && decoded_message.value.isSome)
  || (st.current_key_schema_id != some decoded_message.key_schema_id)

/-- Digit character `d ↦ '0' + d`. -/
def digitChar (d : Nat) : Char := Char.ofNat (48 + d)

/-- Decimal digits of `n`, most significant first, prepended to `acc`;
`fuel` bounds the recursion (any `fuel > n` is enough). -/
def natDigitsAux : Nat → Nat → List Char → List Char
  | 0, _, acc => acc
  | fuel + 1, n, acc =>
    if n < 10 then digitChar n :: acc
    else natDigitsAux fuel (n / 10) (digitChar (n % 10) :: acc)

/-- Decimal representation of `n`, as Python `str(n)` for `n ≥ 0`. -/
def natDigits (n : Nat) : List Char := natDigitsAux (n + 1) n []

/-- Python `str(i)` for an int: a leading `'-'` for negatives. -/
def intChars (i : Int) : List Char :=
  if i < 0 then '-' :: natDigits i.natAbs else natDigits i.toNat

/-- Python `f"{n:04}"`: zero-pad the decimal representation to width 4. -/
def zfill4 (ds : List Char) : List Char := List.replicate (4 - ds.length) '0' ++ ds

/-- The segment directory name
`f"{next(self.schema_version):04}_{key_schema_id}_{value_schema_id}"`. -/
def segmentName (seq : Nat) (kid vid : Int) : String :=
  String.mk (zfill4 (natDigits seq) ++ '_' :: (intChars kid ++ '_' :: intChars vid))

/-- `AvroFileWriter.write_message_to_file`.  Returns the new writer
state, the segment opened by this call (if any), the record appended to
the stream, and the schema ids passed to `get_schema_from_id`, in call
order. -/
def write_message_to_file (env : AvroEnv S V J T) (st : WriterState) (message : RawMessage) :
    Except WireError (WriterState × Option SegmentInfo × ArchiveRecord V × List Int) :=
  match decode_bytes env message.key with
  | .error e => .error e
  | .ok (key_schema_id, decoded_key, ktrace) =>
    match decode_bytes env message.value with
    | .error e => .error e
    | .ok (value_schema_id, decoded_value, vtrace) =>
      let decoded_message : DecodedAvroMessage V :=
        ⟨decoded_key, decoded_value, key_schema_id, value_schema_id⟩
      if schema_changed st decoded_message || st.schema_dir_name.isNone then
        let name := segmentName st.schema_version key_schema_id value_schema_id
        let seg : SegmentInfo :=
          ⟨name, st.schema_version, key_schema_id, value_schema_id,
           env.jsonDumps (env.originalSchema key_schema_id),
           env.jsonDumps (env.originalSchema value_schema_id)⟩
        .ok (⟨some key_schema_id, some value_schema_id, some name, st.schema_version + 1⟩,
             some seg,
             ⟨decoded_key, decoded_value, name⟩,
             ktrace ++ vtrace ++ [key_schema_id, value_schema_id])
      else
        .ok (st, none,
             ⟨decoded_key, decoded_value, st.schema_dir_name.getD ""⟩,
             ktrace ++ vtrace)

/-- A whole writer session: fold `write_message_to_file` over a message
list, collecting the opened segments, the appended records and the
resolver-call trace.  An exception aborts the session. -/
def runWriterAux (env : AvroEnv S V J T) (st : WriterState) :
    List RawMessage →
      Except WireError (WriterState × List SegmentInfo × List (ArchiveRecord V) × List Int)
  | [] => .ok (st, [], [], [])
  | m :: ms =>
    match write_message_to_file env st m with
    | .error e => .error e
    | .ok (st1, segOpt, rec, tr) =>
      match runWriterAux env st1 ms with
      | .error e => .error e
      | .ok (st2, segs, recs, trs) =>
          .ok (st2, segOpt.toList ++ segs, rec :: recs, tr ++ trs)

/-- Just the decoded data of one message (both channels), without the
resolver trace; used to state claims. -/
def decodeMsg (env : AvroEnv S V J T) (message : RawMessage) :
    Except WireError (Int × Option V × Int × Option V) :=
  match decode_bytes env message.key with
  | .error e => .error e
  | .ok (kid, dk, _) =>
    match decode_bytes env message.value with
    | .error e => .error e
    | .ok (vid, dv, _) => .ok (kid, dk, vid, dv)

/-- Modelled from the spec: `KafkaMessage` lives in `esque/message.py`,
which is not part of the sources here; per the spec a reconstructed
message is `{key, value, key_schema, value_schema}` and the source call
is `KafkaMessage(record["key"], record["value"], key_schema, value_schema)`. -/
structure KafkaMessage (V T : Type) where
  key : Option V
  value : Option V
  key_schema : T
  value_schema : T

/-- `AvroFileReader.read_from_file`, on a record stream modelled as the
list of records remaining in the pickle file.  `fs` is the on-disk
archive: directory name ↦ the texts of `key_schema.avsc` and
`value_schema.avsc`, or `none` when the directory is missing. -/
def read_from_file (env : AvroEnv S V J T) (fs : String → Option (String × String)) :
    List (ArchiveRecord V) →
      Except ReadError (Option (KafkaMessage V T) × List (ArchiveRecord V))
  | [] => .ok (none, [])
  | record :: rest =>
    match fs record.schema_directory_name with
    | none => .error .segmentMissing
    | some (ktext, vtext) =>
        .ok (some ⟨record.key, record.value, env.loadSchema ktext, env.loadSchema vtext⟩,
             rest)

/-- The read loop: call `read_from_file` until the stream is exhausted
or an error terminates the sequence. -/
def readAll (env : AvroEnv S V J T) (fs : String → Option (String × String)) :
    List (ArchiveRecord V) → Except ReadError (List (KafkaMessage V T))
  | [] => .ok []
  | record :: rest =>
    match read_from_file env fs (record :: rest) with
    | .error e => .error e
    | .ok (none, _) => .ok []
    | .ok (some msg, _) =>
      match readAll env fs rest with
      | .error e => .error e
      | .ok msgs => .ok (msg :: msgs)

/-- The on-disk archive produced by a list of created segments: look a
directory up by name. -/
def fsOf (segs : List SegmentInfo) (name : String) : Option (String × String) :=
  (segs.find? (fun s => s.name == name)).map (fun s => (s.key_schema_doc, s.value_schema_doc))

/-- A concrete instantiation of the external collaborators, used to
evaluate the writer and reader on concrete inputs. -/
def testEnv : AvroEnv Int Nat String String where
  originalSchema := fun i => toString i
  parsedSchema := fun i => i
  avroRead := fun s bs => s.natAbs * 100 + bs.length
  jsonDumps := fun j => j
  loadSchema := fun s => s

/-! ## Basic lemmas about decoding and the write step -/

theorem decode_bytes_none (env : AvroEnv S V J T) :
    decode_bytes env none = .ok (-1, none, []) := rfl

theorem decode_bytes_cons (env : AvroEnv S V J T) (b0 b1 b2 b3 b4 : Byte) (rest : List Byte) :
    decode_bytes env (some (b0 :: b1 :: b2 :: b3 :: b4 :: rest)) =
      .ok (be32 b1 b2 b3 b4,
           some (env.avroRead (env.parsedSchema (be32 b1 b2 b3 b4)) rest),
           [be32 b1 b2 b3 b4]) := rfl

theorem decode_bytes_short (env : AvroEnv S V J T) (data : List Byte)
    (h : data.length < 5) :
    decode_bytes env (some data) = .error .malformedWireFormat := by
  match data, h with
  | [], _ => rfl
  | [_], _ => rfl
  | [_, _], _ => rfl
  | [_, _, _], _ => rfl
  | [_, _, _, _], _ => rfl
  | _ :: _ :: _ :: _ :: _ :: _, h => simp at h; omega

theorem decode_bytes_some_eq (env : AvroEnv S V J T) (data : List Byte) :
    decode_bytes env (some data) =
      match extract_schema_id (data.take 5) with
      | .error e => .error e
      | .ok schema_id =>
          .ok (schema_id, some (env.avroRead (env.parsedSchema schema_id) (data.drop 5)),
               [schema_id]) := rfl

theorem decode_bytes_ok_nonneg (env : AvroEnv S V J T) (data : List Byte)
    (kid : Int) (dv : Option V) (tr : List Int)
    (h : decode_bytes env (some data) = .ok (kid, dv, tr)) :
    0 ≤ kid ∧ dv.isSome = true ∧ tr = [kid] := by
  rw [decode_bytes_some_eq] at h
  cases hx : extract_schema_id (data.take 5) with
  | error e => rw [hx] at h; exact absurd h (by simp)
  | ok i =>
    rw [hx] at h
    obtain ⟨rfl, rfl, rfl⟩ : i = kid ∧ some _ = dv ∧ [i] = tr := by
      simpa using h
    refine ⟨?_, by simp, rfl⟩
    unfold extract_schema_id at hx
    split at hx
    · cases hx; positivity
    · exact absurd hx (by simp)

theorem decodeMsg_ok (env : AvroEnv S V J T) (msg : RawMessage)
    (kid : Int) (dk : Option V) (vid : Int) (dv : Option V)
    (h : decodeMsg env msg = .ok (kid, dk, vid, dv)) :
    ∃ ktr vtr, decode_bytes env msg.key = .ok (kid, dk, ktr) ∧
      decode_bytes env msg.value = .ok (vid, dv, vtr) := by
  unfold decodeMsg at h
  cases hk : decode_bytes env msg.key with
  | error e => rw [hk] at h; exact absurd h (by simp)
  | ok x =>
    obtain ⟨kid1, dk1, ktr⟩ := x
    rw [hk] at h
    cases hv : decode_bytes env msg.value with
    | error e => rw [hv] at h; exact absurd h (by simp)
    | ok y =>
      obtain ⟨vid1, dv1, vtr⟩ := y
      rw [hv] at h
      obtain ⟨h1, h2, h3, h4⟩ : kid1 = kid ∧ dk1 = dk ∧ vid1 = vid ∧ dv1 = dv := by
        simpa using h
      exact ⟨ktr, vtr, by rw [h1, h2], by rw [h3, h4]⟩

theorem schema_changed_iff (st : WriterState) (m : DecodedAvroMessage V) :
    schema_changed st m = true ↔
      ((st.current_value_schema_id ≠ some m.value_schema_id ∧ m.value ≠ none) ∨
        st.current_key_schema_id ≠ some m.key_schema_id) := by
  simp [schema_changed, Option.isSome_iff_ne_none]

/-! ## Decimal digits and segment names -/

/-- Numeric value of a digit character. -/
def charVal (c : Char) : Nat := c.toNat - 48

/-- Value of a most-significant-first digit string. -/
def digitsVal (ds : List Char) : Nat := ds.foldl (fun a c => a * 10 + charVal c) 0

theorem charVal_digitChar (d : Nat) (h : d < 10) : charVal (digitChar d) = d := by
  interval_cases d <;> rfl

theorem digitChar_ne_underscore (d : Nat) (h : d < 10) : digitChar d ≠ '_' := by
  interval_cases d <;> decide

theorem natDigitsAux_append (fuel : Nat) :
    ∀ (n : Nat) (acc : List Char),
      natDigitsAux fuel n acc = natDigitsAux fuel n [] ++ acc := by
  induction fuel with
  | zero => intro n acc; rfl
  | succ fuel ih =>
    intro n acc
    by_cases h : n < 10
    · simp [natDigitsAux, h]
    · simp only [natDigitsAux, if_neg h]
      rw [ih (n / 10) (digitChar (n % 10) :: acc), ih (n / 10) [digitChar (n % 10)]]
      simp

theorem not_mem_natDigitsAux (c : Char) (hc : ∀ d, d < 10 → digitChar d ≠ c)
    (fuel : Nat) : ∀ (n : Nat) (acc : List Char), c ∉ acc → c ∉ natDigitsAux fuel n acc := by
  induction fuel with
  | zero => intro n acc h; exact h
  | succ fuel ih =>
    intro n acc hacc
    by_cases h : n < 10
    · simp only [natDigitsAux, if_pos h, List.mem_cons, not_or]
      exact ⟨fun he => hc n h he.symm, hacc⟩
    · simp only [natDigitsAux, if_neg h]
      refine ih (n / 10) _ ?_
      simp only [List.mem_cons, not_or]
      exact ⟨fun he => hc (n % 10) (Nat.mod_lt _ (by omega)) he.symm, hacc⟩

theorem digitsVal_natDigitsAux (fuel : Nat) :
    ∀ n : Nat, n < 10 ^ fuel → digitsVal (natDigitsAux fuel n []) = n := by
  induction fuel with
  | zero =>
    intro n hn
    interval_cases n
    rfl
  | succ fuel ih =>
    intro n hn
    by_cases h : n < 10
    · simp only [natDigitsAux, if_pos h]
      show 0 * 10 + charVal (digitChar n) = n
      rw [charVal_digitChar n h]
      omega
    · simp only [natDigitsAux, if_neg h]
      rw [natDigitsAux_append fuel (n / 10) [digitChar (n % 10)]]
      have hdiv : n / 10 < 10 ^ fuel := by
        rw [Nat.div_lt_iff_lt_mul (by omega)]
        calc n < 10 ^ (fuel + 1) := hn
        _ = 10 ^ fuel * 10 := by ring
      have := ih (n / 10) hdiv
      simp only [digitsVal, List.foldl_append, List.foldl_cons, List.foldl_nil] at this ⊢
      rw [this, charVal_digitChar (n % 10) (Nat.mod_lt _ (by omega))]
      omega

theorem digitsVal_natDigits (n : Nat) : digitsVal (natDigits n) = n := by
  refine digitsVal_natDigitsAux (n + 1) n ?_
  calc n < 2 ^ n := Nat.lt_two_pow n
  _ ≤ 10 ^ n := Nat.pow_le_pow_left (by omega) n
  _ ≤ 10 ^ (n + 1) := Nat.pow_le_pow_right (by omega) (by omega)

theorem underscore_not_mem_natDigits (n : Nat) : '_' ∉ natDigits n :=
  not_mem_natDigitsAux '_' (fun d hd => digitChar_ne_underscore d hd) (n + 1) n [] (by simp)

theorem digitsVal_replicate_zero (k : Nat) (ds : List Char) :
    digitsVal (List.replicate k '0' ++ ds) = digitsVal ds := by
  induction k with
  | zero => rfl
  | succ k ih => exact ih

theorem underscore_not_mem_zfill4 (n : Nat) : '_' ∉ zfill4 (natDigits n) := by
  simp only [zfill4, List.mem_append, not_or]
  exact ⟨by simp [List.mem_replicate], underscore_not_mem_natDigits n⟩

theorem digitsVal_zfill4 (n : Nat) : digitsVal (zfill4 (natDigits n)) = n := by
  rw [zfill4, digitsVal_replicate_zero, digitsVal_natDigits]

theorem append_underscore_inj (l1 : List Char) :
    ∀ (l2 r1 r2 : List Char), l1 ++ '_' :: r1 = l2 ++ '_' :: r2 →
      '_' ∉ l1 → '_' ∉ l2 → l1 = l2 := by
  induction l1 with
  | nil =>
    intro l2 r1 r2 h h1 h2
    cases l2 with
    | nil => rfl
    | cons b t =>
      exfalso
      simp only [List.nil_append, List.cons_append, List.cons.injEq] at h
      exact h2 (by rw [← h.1]; exact List.mem_cons_self _ _)
  | cons a t ih =>
    intro l2 r1 r2 h h1 h2
    cases l2 with
    | nil =>
      exfalso
      simp only [List.nil_append, List.cons_append, List.cons.injEq] at h
      exact h1 (by rw [h.1]; exact List.mem_cons_self _ _)
    | cons b t2 =>
      simp only [List.cons_append, List.cons.injEq] at h
      have := ih t2 r1 r2 h.2 (fun hm => h1 (List.mem_cons_of_mem _ hm))
        (fun hm => h2 (List.mem_cons_of_mem _ hm))
      rw [h.1, this]

/-- The sequence number is recoverable from a segment name, so names
with distinct sequence numbers are distinct. -/
theorem segmentName_inj_seq (s1 s2 : Nat) (k1 v1 k2 v2 : Int)
    (h : segmentName s1 k1 v1 = segmentName s2 k2 v2) : s1 = s2 := by
  have hd : zfill4 (natDigits s1) ++ '_' :: (intChars k1 ++ '_' :: intChars v1) =
      zfill4 (natDigits s2) ++ '_' :: (intChars k2 ++ '_' :: intChars v2) :=
    congrArg String.data h
  have h3 := append_underscore_inj _ _ _ _ hd
    (underscore_not_mem_zfill4 s1) (underscore_not_mem_zfill4 s2)
  have := congrArg digitsVal h3
  rwa [digitsVal_zfill4, digitsVal_zfill4] at this

/-! ## The write step, characterized -/

/-- Unfolding of one write call once both channels decode. -/
theorem write_message_eq (env : AvroEnv S V J T) (st : WriterState) (msg : RawMessage)
    (kid : Int) (dk : Option V) (ktr : List Int) (vid : Int) (dv : Option V) (vtr : List Int)
    (hk : decode_bytes env msg.key = .ok (kid, dk, ktr))
    (hv : decode_bytes env msg.value = .ok (vid, dv, vtr)) :
    write_message_to_file env st msg =
      if schema_changed st ⟨dk, dv, kid, vid⟩ || st.schema_dir_name.isNone then
        .ok (⟨some kid, some vid, some (segmentName st.schema_version kid vid),
              st.schema_version + 1⟩,
             some ⟨segmentName st.schema_version kid vid, st.schema_version, kid, vid,
                   env.jsonDumps (env.originalSchema kid),
                   env.jsonDumps (env.originalSchema vid)⟩,
             ⟨dk, dv, segmentName st.schema_version kid vid⟩,
             ktr ++ vtr ++ [kid, vid])
      else
        .ok (st, none, ⟨dk, dv, st.schema_dir_name.getD ""⟩, ktr ++ vtr) := by
  unfold write_message_to_file
  rw [hk, hv]

/-- Unfolding of one session step. -/
theorem runWriterAux_cons (env : AvroEnv S V J T) (st : WriterState)
    (m : RawMessage) (ms : List RawMessage) :
    runWriterAux env st (m :: ms) =
      match write_message_to_file env st m with
      | .error e => .error e
      | .ok (st1, segOpt, rec, tr) =>
        match runWriterAux env st1 ms with
        | .error e => .error e
        | .ok (st2, segs, recs, trs) =>
            .ok (st2, segOpt.toList ++ segs, rec :: recs, tr ++ trs) := rfl

/-- Unfolding of one session step whose write call succeeded. -/
theorem runWriterAux_cons_eq (env : AvroEnv S V J T) (st : WriterState)
    (m : RawMessage) (ms : List RawMessage) (st1 : WriterState)
    (segOpt : Option SegmentInfo) (rec : ArchiveRecord V) (tr : List Int)
    (hw : write_message_to_file env st m = .ok (st1, segOpt, rec, tr)) :
    runWriterAux env st (m :: ms) =
      match runWriterAux env st1 ms with
      | .error e => .error e
      | .ok (st2, segs, recs, trs) =>
          .ok (st2, segOpt.toList ++ segs, rec :: recs, tr ++ trs) := by
  rw [runWriterAux_cons, hw]

/-- A failed write call aborts the session. -/
theorem runWriterAux_cons_error (env : AvroEnv S V J T) (st : WriterState)
    (m : RawMessage) (ms : List RawMessage) (e : WireError)
    (hw : write_message_to_file env st m = .error e) :
    runWriterAux env st (m :: ms) = .error e := by
  rw [runWriterAux_cons, hw]

/-! ## Claim theorems: decoding -/

/-- C8: header decoding.  For an absent payload `decode_bytes` returns
schema id `-1` and no decoded value, with no resolver call; for a
present payload of at least 5 bytes the schema id is exactly the
big-endian unsigned 32-bit integer in bytes 1–4 and the Avro body
decoded is exactly the bytes after byte 4. -/
theorem decode_bytes_header_spec (env : AvroEnv S V J T) :
    (decode_bytes env none = .ok (-1, none, [])) ∧
    (∀ (b0 b1 b2 b3 b4 : Byte) (rest : List Byte),
      decode_bytes env (some (b0 :: b1 :: b2 :: b3 :: b4 :: rest)) =
        .ok (((((b1.val * 256 + b2.val) * 256 + b3.val) * 256 + b4.val : Nat) : Int),
             some (env.avroRead
               (env.parsedSchema ((((b1.val * 256 + b2.val) * 256 + b3.val) * 256 + b4.val : Nat) : Int))
               rest),
             [(((b1.val * 256 + b2.val) * 256 + b3.val) * 256 + b4.val : Nat)])) :=
  ⟨rfl, fun _ _ _ _ _ _ => rfl⟩

/-- C10: the reserved format marker (byte 0) is never validated — for a
payload of at least 5 bytes, decoding gives the same result whatever
byte 0 is. -/
theorem marker_byte_ignored (env : AvroEnv S V J T)
    (b0 b0' b1 b2 b3 b4 : Byte) (rest : List Byte) :
    decode_bytes env (some (b0 :: b1 :: b2 :: b3 :: b4 :: rest)) =
      decode_bytes env (some (b0' :: b1 :: b2 :: b3 :: b4 :: rest)) := rfl

/-! ## The segment trigger -/

/-- Whether one write call opens a new segment. -/
def opensSegment (env : AvroEnv S V J T) (st : WriterState) (msg : RawMessage) : Bool :=
  match write_message_to_file env st msg with
  | .ok (_, some _, _, _) => true
  | _ => false

theorem trigger_iff (st : WriterState) (kid : Int) (dk : Option V) (vid : Int)
    (dv : Option V) :
    (schema_changed st ⟨dk, dv, kid, vid⟩ || st.schema_dir_name.isNone) = true ↔
      (st.schema_dir_name = none ∨ st.current_key_schema_id ≠ some kid ∨
        (st.current_value_schema_id ≠ some vid ∧ dv ≠ none)) := by
  rw [Bool.or_eq_true, schema_changed_iff]
  simp only [Option.isNone_iff_eq_none]
  tauto

/-- C1: a write call opens a new segment iff no segment exists yet, or
the key schema id differs from the current one, or the value schema id
differs while the decoded value is present — so a tombstone alone
(absent value) never opens a segment. -/
theorem new_segment_iff (env : AvroEnv S V J T) (st : WriterState) (msg : RawMessage)
    (kid : Int) (dk : Option V) (vid : Int) (dv : Option V)
    (h : decodeMsg env msg = .ok (kid, dk, vid, dv)) :
    opensSegment env st msg = true ↔
      (st.schema_dir_name = none ∨ st.current_key_schema_id ≠ some kid ∨
        (st.current_value_schema_id ≠ some vid ∧ dv ≠ none)) := by
  obtain ⟨ktr, vtr, hk, hv⟩ := decodeMsg_ok env msg kid dk vid dv h
  have weq := write_message_eq env st msg kid dk ktr vid dv vtr hk hv
  rw [← trigger_iff st kid dk vid dv]
  unfold opensSegment
  by_cases hc : (schema_changed st ⟨dk, dv, kid, vid⟩ || st.schema_dir_name.isNone) = true
  · rw [if_pos hc] at weq
    rw [weq]
    simp [hc]
  · rw [if_neg hc] at weq
    rw [weq]
    simp only [Bool.not_eq_true] at hc
    simp [hc]

/-- Witness for C1 at a concrete state and message. -/
theorem new_segment_iff_witness :
    opensSegment testEnv initState ⟨some [0, 0, 0, 0, 1], some [0, 0, 0, 0, 2]⟩ = true ↔
      (initState.schema_dir_name = none ∨ initState.current_key_schema_id ≠ some 1 ∨
        (initState.current_value_schema_id ≠ some 2 ∧ (some 200 : Option Nat) ≠ none)) :=
  new_segment_iff testEnv initState ⟨some [0, 0, 0, 0, 1], some [0, 0, 0, 0, 2]⟩
    1 (some 100) 2 (some 200) rfl

/-! ## Malformed payloads -/

theorem write_key_error (env : AvroEnv S V J T) (st : WriterState) (msg : RawMessage)
    (e : WireError) (hk : decode_bytes env msg.key = .error e) :
    write_message_to_file env st msg = .error e := by
  simp only [write_message_to_file, hk]

theorem write_value_error (env : AvroEnv S V J T) (st : WriterState) (msg : RawMessage)
    (kid : Int) (dk : Option V) (ktr : List Int) (e : WireError)
    (hk : decode_bytes env msg.key = .ok (kid, dk, ktr))
    (hv : decode_bytes env msg.value = .error e) :
    write_message_to_file env st msg = .error e := by
  simp only [write_message_to_file, hk, hv]

/-- C5: a present key or value payload shorter than 5 bytes makes the
write call raise MalformedWireFormat.  The call returns no new state,
no segment and no record, so the writer's segment state and the record
stream are exactly as before the call. -/
theorem short_payload_error (env : AvroEnv S V J T) (st : WriterState) (msg : RawMessage)
    (h : (∃ bs, msg.key = some bs ∧ bs.length < 5) ∨
         (∃ bs, msg.value = some bs ∧ bs.length < 5)) :
    write_message_to_file env st msg = .error .malformedWireFormat := by
  rcases h with ⟨bs, hbs, hlen⟩ | ⟨bs, hbs, hlen⟩
  · exact write_key_error env st msg _ (by rw [hbs]; exact decode_bytes_short env bs hlen)
  · cases hk : decode_bytes env msg.key with
    | error e => cases e; exact write_key_error env st msg _ hk
    | ok x =>
      obtain ⟨kid, dk, ktr⟩ := x
      exact write_value_error env st msg kid dk ktr _ hk
        (by rw [hbs]; exact decode_bytes_short env bs hlen)

/-- Witness for C5: a 3-byte key payload is rejected. -/
theorem short_payload_error_witness :
    write_message_to_file testEnv initState ⟨some [0, 0, 0], none⟩ =
      .error .malformedWireFormat :=
  short_payload_error testEnv initState ⟨some [0, 0, 0], none⟩
    (Or.inl ⟨[0, 0, 0], rfl, by decide⟩)

/-! ## Resolver calls and the -1 sentinel -/

/-- C2 counterexample: a single message with an absent key and a
present value (wire schema id 1).  The writer's resolver-call trace is
`[1, -1, 1]`: when it opens the segment it passes the key schema id
`-1` (the sentinel of the absent key) to `get_schema_from_id`. -/
theorem resolver_sentinel_ctrex :
    (runWriterAux testEnv initState [⟨none, some [0, 0, 0, 0, 1]⟩]).map
      (fun r => r.2.2.2) = .ok [1, -1, 1] := rfl

theorem write_trace_nonneg (env : AvroEnv S V J T) (st : WriterState) (msg : RawMessage)
    (st1 : WriterState) (segOpt : Option SegmentInfo) (rec : ArchiveRecord V) (tr : List Int)
    (hkey : msg.key ≠ none) (hval : msg.value ≠ none)
    (h : write_message_to_file env st msg = .ok (st1, segOpt, rec, tr)) :
    ∀ i ∈ tr, 0 ≤ i := by
  obtain ⟨kd, hkd⟩ : ∃ x, msg.key = some x := Option.ne_none_iff_exists'.mp hkey
  obtain ⟨vd, hvd⟩ : ∃ x, msg.value = some x := Option.ne_none_iff_exists'.mp hval
  cases hk : decode_bytes env msg.key with
  | error e => rw [write_key_error env st msg e hk] at h; exact absurd h (by simp)
  | ok x =>
    obtain ⟨kid, dk, ktr⟩ := x
    cases hv : decode_bytes env msg.value with
    | error e =>
      rw [write_value_error env st msg kid dk ktr e hk hv] at h
      exact absurd h (by simp)
    | ok y =>
      obtain ⟨vid, dv, vtr⟩ := y
      rw [write_message_eq env st msg kid dk ktr vid dv vtr hk hv] at h
      have hkn := decode_bytes_ok_nonneg env kd kid dk ktr (by rw [hkd] at hk; exact hk)
      have hvn := decode_bytes_ok_nonneg env vd vid dv vtr (by rw [hvd] at hv; exact hv)
      split at h
      all_goals
        simp only [Except.ok.injEq, Prod.mk.injEq] at h
        obtain ⟨-, -, -, htr⟩ := h
        subst htr
        intro i hi
        have hi' : i = kid ∨ i = vid := by
          rw [hkn.2.2, hvn.2.2] at hi
          simp at hi
          tauto
        rcases hi' with rfl | rfl
        · exact hkn.1
        · exact hvn.1

theorem run_trace_nonneg (env : AvroEnv S V J T) (msgs : List RawMessage) :
    ∀ (st st' : WriterState) (segs : List SegmentInfo) (recs : List (ArchiveRecord V))
      (tr : List Int),
      (∀ m ∈ msgs, m.key ≠ none ∧ m.value ≠ none) →
      runWriterAux env st msgs = .ok (st', segs, recs, tr) →
      ∀ i ∈ tr, 0 ≤ i := by
  induction msgs with
  | nil =>
    intro st st' segs recs tr _ hrun
    obtain ⟨-, -, -, htr⟩ : st = st' ∧ [] = segs ∧ [] = recs ∧ [] = tr := by
      simpa [runWriterAux] using hrun
    subst htr
    simp
  | cons m ms ih =>
    intro st st' segs recs tr hall hrun
    cases hw : write_message_to_file env st m with
    | error e => rw [runWriterAux_cons_error env st m ms e hw] at hrun; exact absurd hrun (by simp)
    | ok x =>
      obtain ⟨st1, segOpt, rec, tr1⟩ := x
      rw [runWriterAux_cons_eq env st m ms st1 segOpt rec tr1 hw] at hrun
      cases hr : runWriterAux env st1 ms with
      | error e => rw [hr] at hrun; exact absurd hrun (by simp)
      | ok y =>
        obtain ⟨st2, segs2, recs2, trs⟩ := y
        rw [hr] at hrun
        obtain ⟨-, -, -, htr⟩ :
            st2 = st' ∧ segOpt.toList ++ segs2 = segs ∧ rec :: recs2 = recs ∧
              tr1 ++ trs = tr := by simpa using hrun
        subst htr
        intro i hi
        rcases List.mem_append.mp hi with hi1 | hi2
        · exact write_trace_nonneg env st m st1 segOpt rec tr1
            (hall m (by simp)).1 (hall m (by simp)).2 hw i hi1
        · exact ih st1 st2 segs2 recs2 trs
            (fun x hx => hall x (List.mem_cons_of_mem m hx)) hr i hi2

/-- C2 amended: in the decode path the resolver only ever receives the
header id of a present payload, but segment creation passes the new
segment's key and value schema ids, which are the `-1` sentinel exactly
when the opening message's key or value is absent.  When every message
of the session has both key and value present, the resolver is never
invoked with `-1`. -/
theorem resolver_no_sentinel_when_present (env : AvroEnv S V J T)
    (msgs : List RawMessage) (st' : WriterState) (segs : List SegmentInfo)
    (recs : List (ArchiveRecord V)) (tr : List Int)
    (hall : ∀ m ∈ msgs, m.key ≠ none ∧ m.value ≠ none)
    (hrun : runWriterAux env initState msgs = .ok (st', segs, recs, tr)) :
    (-1 : Int) ∉ tr := by
  intro hmem
  have := run_trace_nonneg env msgs initState st' segs recs tr hall hrun (-1) hmem
  omega

/-- Witness for the amended C2 at a concrete one-message session. -/
theorem resolver_no_sentinel_witness : (-1 : Int) ∉ ([1, 2, 1, 2] : List Int) :=
  resolver_no_sentinel_when_present testEnv [⟨some [0, 0, 0, 0, 1], some [0, 0, 0, 0, 2]⟩]
    ⟨some 1, some 2, some "0001_1_2", 2⟩
    [⟨"0001_1_2", 1, 1, 2, "1", "2"⟩]
    [⟨some 100, some 200, "0001_1_2"⟩]
    [1, 2, 1, 2]
    (by decide) rfl

/-! ## Full characterization of a successful write call -/

theorem write_ok_cases (env : AvroEnv S V J T) (st : WriterState) (msg : RawMessage)
    (st1 : WriterState) (segOpt : Option SegmentInfo) (rec : ArchiveRecord V) (tr : List Int)
    (h : write_message_to_file env st msg = .ok (st1, segOpt, rec, tr)) :
    ∃ kid dk ktr vid dv vtr,
      decode_bytes env msg.key = .ok (kid, dk, ktr) ∧
      decode_bytes env msg.value = .ok (vid, dv, vtr) ∧
      (((schema_changed st ⟨dk, dv, kid, vid⟩ || st.schema_dir_name.isNone) = true ∧
          segOpt = some ⟨segmentName st.schema_version kid vid, st.schema_version, kid, vid,
            env.jsonDumps (env.originalSchema kid), env.jsonDumps (env.originalSchema vid)⟩ ∧
          st1 = ⟨some kid, some vid, some (segmentName st.schema_version kid vid),
            st.schema_version + 1⟩ ∧
          rec = ⟨dk, dv, segmentName st.schema_version kid vid⟩ ∧
          tr = ktr ++ vtr ++ [kid, vid]) ∨
        ((schema_changed st ⟨dk, dv, kid, vid⟩ || st.schema_dir_name.isNone) = false ∧
          segOpt = none ∧ st1 = st ∧
          rec = ⟨dk, dv, st.schema_dir_name.getD ""⟩ ∧
          tr = ktr ++ vtr)) := by
  cases hk : decode_bytes env msg.key with
  | error e => rw [write_key_error env st msg e hk] at h; exact absurd h (by simp)
  | ok x =>
    obtain ⟨kid, dk, ktr⟩ := x
    cases hv : decode_bytes env msg.value with
    | error e =>
      rw [write_value_error env st msg kid dk ktr e hk hv] at h
      exact absurd h (by simp)
    | ok y =>
      obtain ⟨vid, dv, vtr⟩ := y
      rw [write_message_eq env st msg kid dk ktr vid dv vtr hk hv] at h
      refine ⟨kid, dk, ktr, vid, dv, vtr, rfl, rfl, ?_⟩
      by_cases hc : (schema_changed st ⟨dk, dv, kid, vid⟩ || st.schema_dir_name.isNone) = true
      · rw [if_pos hc] at h
        obtain ⟨h1, h2, h3, h4⟩ :
            _ = st1 ∧ _ = segOpt ∧ _ = rec ∧ _ = tr := by
          simp only [Except.ok.injEq, Prod.mk.injEq] at h
          exact h
        exact Or.inl ⟨hc, h2.symm, h1.symm, h3.symm, h4.symm⟩
      · rw [if_neg hc] at h
        obtain ⟨h1, h2, h3, h4⟩ :
            _ = st1 ∧ _ = segOpt ∧ _ = rec ∧ _ = tr := by
          simp only [Except.ok.injEq, Prod.mk.injEq] at h
          exact h
        exact Or.inr ⟨by rw [Bool.not_eq_true] at hc; exact hc,
          h2.symm, h1.symm, h3.symm, h4.symm⟩

/-! ## Segment key schema ids -/

/-- C3 counterexample: the single message with an absent key creates a
segment whose `key_schema_id` is `-1`, not ≥ 0. -/
theorem segment_key_id_ctrex :
    (runWriterAux testEnv initState [⟨none, some [0, 0, 0, 0, 1]⟩]).map
      (fun r => r.2.1.map SegmentInfo.key_schema_id) = .ok [-1] := rfl

theorem run_segments_key_nonneg (env : AvroEnv S V J T) (msgs : List RawMessage) :
    ∀ (st st' : WriterState) (segs : List SegmentInfo) (recs : List (ArchiveRecord V))
      (tr : List Int),
      (∀ m ∈ msgs, m.key ≠ none) →
      runWriterAux env st msgs = .ok (st', segs, recs, tr) →
      ∀ s ∈ segs, 0 ≤ s.key_schema_id := by
  induction msgs with
  | nil =>
    intro st st' segs recs tr _ hrun
    obtain ⟨-, hsegs, -, -⟩ : st = st' ∧ [] = segs ∧ [] = recs ∧ [] = tr := by
      simpa [runWriterAux] using hrun
    subst hsegs
    simp
  | cons m ms ih =>
    intro st st' segs recs tr hall hrun
    cases hw : write_message_to_file env st m with
    | error e =>
      rw [runWriterAux_cons_error env st m ms e hw] at hrun
      exact absurd hrun (by simp)
    | ok x =>
      obtain ⟨st1, segOpt, rec, tr1⟩ := x
      rw [runWriterAux_cons_eq env st m ms st1 segOpt rec tr1 hw] at hrun
      cases hr : runWriterAux env st1 ms with
      | error e => rw [hr] at hrun; exact absurd hrun (by simp)
      | ok y =>
        obtain ⟨st2, segs2, recs2, trs⟩ := y
        rw [hr] at hrun
        obtain ⟨-, hsegs, -, -⟩ :
            st2 = st' ∧ segOpt.toList ++ segs2 = segs ∧ rec :: recs2 = recs ∧
              tr1 ++ trs = tr := by simpa using hrun
        subst hsegs
        intro s hs
        rcases List.mem_append.mp hs with hs1 | hs2
        · obtain ⟨kd, hkd⟩ : ∃ x, m.key = some x :=
            Option.ne_none_iff_exists'.mp (hall m (by simp))
          obtain ⟨kid, dk, ktr, vid, dv, vtr, hk, hv, hcases⟩ :=
            write_ok_cases env st m st1 segOpt rec tr1 hw
          have hkn := decode_bytes_ok_nonneg env kd kid dk ktr (by rw [hkd] at hk; exact hk)
          rcases hcases with ⟨-, hseg, -, -, -⟩ | ⟨-, hseg, -, -, -⟩
          · rw [hseg] at hs1
            simp only [Option.toList_some, List.mem_singleton] at hs1
            rw [hs1]
            exact hkn.1
          · rw [hseg] at hs1
            simp at hs1
        · exact ih st1 st2 segs2 recs2 trs
            (fun x hx => hall x (List.mem_cons_of_mem m hx)) hr s hs2

/-- C3 amended: a segment's `key_schema_id` equals the wire-header key
schema id of the message that opened it; it is ≥ 0 whenever that
message's key is present, but a message with an absent key yields a
segment with `key_schema_id = -1`.  In a session whose messages all
have present keys, every segment's key schema id is ≥ 0. -/
theorem segment_key_id_nonneg_when_keys_present (env : AvroEnv S V J T)
    (msgs : List RawMessage) (st' : WriterState) (segs : List SegmentInfo)
    (recs : List (ArchiveRecord V)) (tr : List Int)
    (hall : ∀ m ∈ msgs, m.key ≠ none)
    (hrun : runWriterAux env initState msgs = .ok (st', segs, recs, tr)) :
    ∀ s ∈ segs, 0 ≤ s.key_schema_id :=
  run_segments_key_nonneg env msgs initState st' segs recs tr hall hrun

/-- Witness for the amended C3 at a concrete one-message session. -/
theorem segment_key_id_nonneg_witness :
    (0 : Int) ≤ (SegmentInfo.mk "0001_1_2" 1 1 2 "1" "2").key_schema_id :=
  segment_key_id_nonneg_when_keys_present testEnv
    [⟨some [0, 0, 0, 0, 1], some [0, 0, 0, 0, 2]⟩]
    ⟨some 1, some 2, some "0001_1_2", 2⟩
    [⟨"0001_1_2", 1, 1, 2, "1", "2"⟩]
    [⟨some 100, some 200, "0001_1_2"⟩]
    [1, 2, 1, 2]
    (by decide) rfl
    ⟨"0001_1_2", 1, 1, 2, "1", "2"⟩ (by simp)

/-! ## Segment sequence numbers and names -/

theorem run_segments_structure (env : AvroEnv S V J T) (msgs : List RawMessage) :
    ∀ (st st' : WriterState) (segs : List SegmentInfo) (recs : List (ArchiveRecord V))
      (tr : List Int),
      runWriterAux env st msgs = .ok (st', segs, recs, tr) →
      st'.schema_version = st.schema_version + segs.length ∧
      segs.map SegmentInfo.seq = List.range' st.schema_version segs.length ∧
      (∀ s ∈ segs, s.name = segmentName s.seq s.key_schema_id s.value_schema_id) := by
  induction msgs with
  | nil =>
    intro st st' segs recs tr hrun
    obtain ⟨hst, hsegs, -, -⟩ : st = st' ∧ [] = segs ∧ [] = recs ∧ [] = tr := by
      simpa [runWriterAux] using hrun
    subst hsegs
    subst hst
    simp
  | cons m ms ih =>
    intro st st' segs recs tr hrun
    cases hw : write_message_to_file env st m with
    | error e =>
      rw [runWriterAux_cons_error env st m ms e hw] at hrun
      exact absurd hrun (by simp)
    | ok x =>
      obtain ⟨st1, segOpt, rec, tr1⟩ := x
      rw [runWriterAux_cons_eq env st m ms st1 segOpt rec tr1 hw] at hrun
      cases hr : runWriterAux env st1 ms with
      | error e => rw [hr] at hrun; exact absurd hrun (by simp)
      | ok y =>
        obtain ⟨st2, segs2, recs2, trs⟩ := y
        rw [hr] at hrun
        obtain ⟨hst, hsegs, -, -⟩ :
            st2 = st' ∧ segOpt.toList ++ segs2 = segs ∧ rec :: recs2 = recs ∧
              tr1 ++ trs = tr := by simpa using hrun
        subst hst
        subst hsegs
        obtain ⟨kid, dk, ktr, vid, dv, vtr, hk, hv, hcases⟩ :=
          write_ok_cases env st m st1 segOpt rec tr1 hw
        obtain ⟨hv2, hmap2, hnm2⟩ := ih st1 st2 segs2 recs2 trs hr
        rcases hcases with ⟨-, hseg, hst1, -, -⟩ | ⟨-, hseg, hst1, -, -⟩
        · subst hseg
          subst hst1
          simp only [Option.toList_some, List.cons_append, List.nil_append]
          simp only [List.length_cons, List.map_cons, List.range'_succ] at hv2 hmap2 ⊢
          refine ⟨by omega, ?_, ?_⟩
          · simp only [List.cons.injEq]
            exact ⟨trivial, hmap2⟩
          · intro s hs
            rcases List.mem_cons.mp hs with rfl | hs2
            · rfl
            · exact hnm2 s hs2
        · subst hseg
          subst hst1
          simpa using ⟨hv2, hmap2, hnm2⟩

/-- C6: within one session, segment names follow
`{sequence:04d}_{key_schema_id}_{value_schema_id}` with the sequence
1-based and consecutive (hence strictly increasing) in creation order,
and all segment names are pairwise distinct — a re-encountered schema
pair later in the stream gets a fresh name, never the old directory. -/
theorem segment_names_spec (env : AvroEnv S V J T) (msgs : List RawMessage)
    (st' : WriterState) (segs : List SegmentInfo) (recs : List (ArchiveRecord V))
    (tr : List Int)
    (hrun : runWriterAux env initState msgs = .ok (st', segs, recs, tr)) :
    (∀ s ∈ segs, s.name = segmentName s.seq s.key_schema_id s.value_schema_id) ∧
    segs.map SegmentInfo.seq = List.range' 1 segs.length ∧
    segs.Pairwise (fun a b => a.seq < b.seq ∧ a.name ≠ b.name) := by
  obtain ⟨-, hmap, hnm⟩ :=
    run_segments_structure env msgs initState st' segs recs tr hrun
  have hmap1 : segs.map SegmentInfo.seq = List.range' 1 segs.length := hmap
  refine ⟨hnm, hmap1, ?_⟩
  have hlt : segs.Pairwise (fun a b => a.seq < b.seq) := by
    have := List.pairwise_lt_range' 1 segs.length
    rw [← hmap1, List.pairwise_map] at this
    exact this
  refine hlt.imp_of_mem ?_
  intro a b ha hb hab
  refine ⟨hab, fun he => ?_⟩
  rw [hnm a ha, hnm b hb] at he
  have := segmentName_inj_seq a.seq b.seq a.key_schema_id a.value_schema_id
    b.key_schema_id b.value_schema_id he
  omega

/-- Witness for C6: a two-segment session has sequence numbers `[1, 2]`. -/
theorem segment_names_witness :
    ([⟨"0001_1_2", 1, 1, 2, "1", "2"⟩, ⟨"0002_3_2", 2, 3, 2, "3", "2"⟩] :
        List SegmentInfo).map SegmentInfo.seq = List.range' 1 2 :=
  (segment_names_spec testEnv
    [⟨some [0, 0, 0, 0, 1], some [0, 0, 0, 0, 2]⟩,
     ⟨some [0, 0, 0, 0, 3], some [0, 0, 0, 0, 2]⟩]
    ⟨some 3, some 2, some "0002_3_2", 3⟩
    [⟨"0001_1_2", 1, 1, 2, "1", "2"⟩, ⟨"0002_3_2", 2, 3, 2, "3", "2"⟩]
    [⟨some 100, some 200, "0001_1_2"⟩, ⟨some 300, some 200, "0002_3_2"⟩]
    [1, 2, 1, 2, 3, 2, 3, 2]
    rfl).2.1

/-! ## Streams with a single schema pair -/

theorem write_no_trigger (env : AvroEnv S V J T) (st : WriterState) (msg : RawMessage)
    (kid vid : Int) (nm : String) (dk dv : Option V)
    (hck : st.current_key_schema_id = some kid)
    (hcv : st.current_value_schema_id = some vid)
    (hdir : st.schema_dir_name = some nm)
    (hdec : decodeMsg env msg = .ok (kid, dk, vid, dv)) :
    ∃ tr, write_message_to_file env st msg = .ok (st, none, ⟨dk, dv, nm⟩, tr) := by
  obtain ⟨ktr, vtr, hk, hv⟩ := decodeMsg_ok env msg kid dk vid dv hdec
  have hc : (schema_changed st ⟨dk, dv, kid, vid⟩ || st.schema_dir_name.isNone) = false := by
    simp [schema_changed, hck, hcv, hdir]
  have weq := write_message_eq env st msg kid dk ktr vid dv vtr hk hv
  rw [if_neg (by rw [hc]; simp)] at weq
  exact ⟨ktr ++ vtr, by rw [weq, hdir]; rfl⟩

theorem runWriterAux_stable (env : AvroEnv S V J T) (kid vid : Int) (nm : String)
    (msgs : List RawMessage) :
    ∀ (st st' : WriterState) (segs : List SegmentInfo) (recs : List (ArchiveRecord V))
      (tr : List Int),
      st.current_key_schema_id = some kid →
      st.current_value_schema_id = some vid →
      st.schema_dir_name = some nm →
      (∀ m ∈ msgs, ∃ dk dv, decodeMsg env m = .ok (kid, dk, vid, dv)) →
      runWriterAux env st msgs = .ok (st', segs, recs, tr) →
      segs = [] ∧ recs.length = msgs.length ∧
        ∀ r ∈ recs, r.schema_directory_name = nm := by
  induction msgs with
  | nil =>
    intro st st' segs recs tr _ _ _ _ hrun
    obtain ⟨-, hsegs, hrecs, -⟩ : st = st' ∧ [] = segs ∧ [] = recs ∧ [] = tr := by
      simpa [runWriterAux] using hrun
    subst hsegs
    subst hrecs
    simp
  | cons m ms ih =>
    intro st st' segs recs tr hck hcv hdir hall hrun
    obtain ⟨dk, dv, hdec⟩ := hall m (by simp)
    obtain ⟨tr1, hw⟩ := write_no_trigger env st m kid vid nm dk dv hck hcv hdir hdec
    rw [runWriterAux_cons_eq env st m ms st none ⟨dk, dv, nm⟩ tr1 hw] at hrun
    cases hr : runWriterAux env st ms with
    | error e => rw [hr] at hrun; exact absurd hrun (by simp)
    | ok y =>
      obtain ⟨st2, segs2, recs2, trs⟩ := y
      rw [hr] at hrun
      obtain ⟨-, hsegs, hrecs, -⟩ :
          st2 = st' ∧ [] ++ segs2 = segs ∧
            (⟨dk, dv, nm⟩ : ArchiveRecord V) :: recs2 = recs ∧ tr1 ++ trs = tr := by
        simpa using hrun
      subst hsegs
      subst hrecs
      obtain ⟨h1, h2, h3⟩ := ih st st2 segs2 recs2 trs hck hcv hdir
        (fun x hx => hall x (List.mem_cons_of_mem m hx)) hr
      refine ⟨by simpa using h1, by simpa using h2, ?_⟩
      intro r hr2
      rcases List.mem_cons.mp hr2 with rfl | hr3
      · rfl
      · exact h3 r hr3

/-- C7: a stream of N ≥ 1 messages that all decode to one
(key_schema_id, value_schema_id) pair creates exactly one segment, and
every appended record carries that segment's name. -/
theorem single_pair_single_segment (env : AvroEnv S V J T) (msgs : List RawMessage)
    (kid vid : Int) (st' : WriterState) (segs : List SegmentInfo)
    (recs : List (ArchiveRecord V)) (tr : List Int)
    (hne : msgs ≠ [])
    (hall : ∀ m ∈ msgs, ∃ dk dv, decodeMsg env m = .ok (kid, dk, vid, dv))
    (hrun : runWriterAux env initState msgs = .ok (st', segs, recs, tr)) :
    segs.length = 1 ∧ recs.length = msgs.length ∧
      ∀ r ∈ recs, r.schema_directory_name = segmentName 1 kid vid := by
  cases msgs with
  | nil => exact absurd rfl hne
  | cons m ms =>
    obtain ⟨dk, dv, hdec⟩ := hall m (by simp)
    obtain ⟨ktr, vtr, hk, hv⟩ := decodeMsg_ok env m kid dk vid dv hdec
    have weq := write_message_eq env initState m kid dk ktr vid dv vtr hk hv
    rw [if_pos (by simp [initState])] at weq
    rw [runWriterAux_cons_eq env initState m ms _ _ _ _ weq] at hrun
    cases hr : runWriterAux env
        ⟨some kid, some vid, some (segmentName initState.schema_version kid vid),
         initState.schema_version + 1⟩ ms with
    | error e => rw [hr] at hrun; exact absurd hrun (by simp)
    | ok y =>
      obtain ⟨st2, segs2, recs2, trs⟩ := y
      rw [hr] at hrun
      obtain ⟨-, hsegs, hrecs, -⟩ := by simpa using hrun
      subst hsegs
      subst hrecs
      obtain ⟨h1, h2, h3⟩ := runWriterAux_stable env kid vid
        (segmentName initState.schema_version kid vid) ms _ st2 segs2 recs2 trs
        rfl rfl rfl (fun x hx => hall x (List.mem_cons_of_mem m hx)) hr
      subst h1
      refine ⟨by simp, by simpa using h2, ?_⟩
      intro r hr2
      rcases List.mem_cons.mp hr2 with rfl | hr3
      · rfl
      · exact h3 r hr3

/-- Witness for C7: two identical messages produce one segment. -/
theorem single_pair_single_segment_witness :
    ([(⟨"0001_1_2", 1, 1, 2, "1", "2"⟩ : SegmentInfo)].length = 1) :=
  (single_pair_single_segment testEnv
    [⟨some [0, 0, 0, 0, 1], some [0, 0, 0, 0, 2]⟩,
     ⟨some [0, 0, 0, 0, 1], some [0, 0, 0, 0, 2]⟩]
    1 2
    ⟨some 1, some 2, some "0001_1_2", 2⟩
    [⟨"0001_1_2", 1, 1, 2, "1", "2"⟩]
    [⟨some 100, some 200, "0001_1_2"⟩, ⟨some 100, some 200, "0001_1_2"⟩]
    [1, 2, 1, 2, 1, 2]
    (by decide)
    (by
      intro m hm
      simp only [List.mem_cons, List.not_mem_nil, or_false, or_self] at hm
      subst hm
      exact ⟨some 100, some 200, rfl⟩)
    rfl).1

/-! ## The reader -/

theorem read_from_file_cons (env : AvroEnv S V J T) (fs : String → Option (String × String))
    (record : ArchiveRecord V) (rest : List (ArchiveRecord V)) :
    read_from_file env fs (record :: rest) =
      match fs record.schema_directory_name with
      | none => .error .segmentMissing
      | some (ktext, vtext) =>
          .ok (some ⟨record.key, record.value, env.loadSchema ktext, env.loadSchema vtext⟩,
               rest) := rfl

theorem readAll_cons (env : AvroEnv S V J T) (fs : String → Option (String × String))
    (record : ArchiveRecord V) (rest : List (ArchiveRecord V)) :
    readAll env fs (record :: rest) =
      match read_from_file env fs (record :: rest) with
      | .error e => .error e
      | .ok (none, _) => .ok []
      | .ok (some msg, _) =>
        match readAll env fs rest with
        | .error e => .error e
        | .ok msgs => .ok (msg :: msgs) := rfl

/-- C9: the reader returns an absent message exactly when the record
stream is exhausted; on a non-empty stream it fails with SegmentMissing
when the referenced segment directory is absent (and the read loop then
terminates with that error), and otherwise returns the record's key and
value together with both schema documents parsed from the referenced
segment's directory. -/
theorem reader_spec (env : AvroEnv S V J T) (fs : String → Option (String × String)) :
    (read_from_file env fs ([] : List (ArchiveRecord V)) = .ok (none, [])) ∧
    (∀ (record : ArchiveRecord V) (rest : List (ArchiveRecord V)),
      (fs record.schema_directory_name = none →
        read_from_file env fs (record :: rest) = .error .segmentMissing ∧
        readAll env fs (record :: rest) = .error .segmentMissing) ∧
      (∀ ktext vtext, fs record.schema_directory_name = some (ktext, vtext) →
        read_from_file env fs (record :: rest) =
          .ok (some ⟨record.key, record.value, env.loadSchema ktext, env.loadSchema vtext⟩,
               rest))) ∧
    (∀ (recs rest2 : List (ArchiveRecord V)) (res : Option (KafkaMessage V T)),
      read_from_file env fs recs = .ok (res, rest2) → (res = none ↔ recs = [])) := by
  refine ⟨rfl, ?_, ?_⟩
  · intro record rest
    constructor
    · intro hmiss
      have h1 : read_from_file env fs (record :: rest) = .error .segmentMissing := by
        rw [read_from_file_cons, hmiss]
      refine ⟨h1, ?_⟩
      rw [readAll_cons, h1]
    · intro ktext vtext hsome
      rw [read_from_file_cons, hsome]
  · intro recs rest2 res hread
    cases recs with
    | nil =>
      simp only [read_from_file] at hread
      obtain ⟨hres, -⟩ : none = res ∧ [] = rest2 := by simpa using hread
      simp [← hres]
    | cons record rest =>
      rw [read_from_file_cons] at hread
      cases hfs : fs record.schema_directory_name with
      | none => rw [hfs] at hread; exact absurd hread (by simp)
      | some p =>
        obtain ⟨ktext, vtext⟩ := p
        rw [hfs] at hread
        obtain ⟨hres, -⟩ : some _ = res ∧ rest = rest2 := by simpa using hread
        constructor
        · intro h; rw [← hres] at h; exact absurd h (by simp)
        · intro h; exact absurd h (by simp)

/-- Witness for C9: a record whose segment directory is absent. -/
theorem reader_spec_witness :
    read_from_file testEnv (fun _ => none) [⟨none, none, "0001_1_2"⟩] =
      .error .segmentMissing :=
  (((reader_spec testEnv (fun _ => none)).2.1 ⟨none, none, "0001_1_2"⟩ []).1 rfl).1

/-! ## Round trip -/

theorem decodeMsg_eq (env : AvroEnv S V J T) (msg : RawMessage)
    (kid : Int) (dk : Option V) (ktr : List Int) (vid : Int) (dv : Option V) (vtr : List Int)
    (hk : decode_bytes env msg.key = .ok (kid, dk, ktr))
    (hv : decode_bytes env msg.value = .ok (vid, dv, vtr)) :
    decodeMsg env msg = .ok (kid, dk, vid, dv) := by
  unfold decodeMsg
  rw [hk, hv]

/-- The segment's stored schema documents are exactly the serialized
registry documents at its own schema ids. -/
def docsOK (env : AvroEnv S V J T) (seg : SegmentInfo) : Prop :=
  seg.key_schema_doc = env.jsonDumps (env.originalSchema seg.key_schema_id) ∧
  seg.value_schema_doc = env.jsonDumps (env.originalSchema seg.value_schema_id)

/-- The record `r` produced for message `m` points into `segs` at a
segment that matches `m`'s decoded ids: the key id always, the value id
whenever the decoded value is present. -/
def RecOK (env : AvroEnv S V J T) (segs : List SegmentInfo) (m : RawMessage)
    (r : ArchiveRecord V) : Prop :=
  ∃ kid dk vid dv, decodeMsg env m = .ok (kid, dk, vid, dv) ∧
    r.key = dk ∧ r.value = dv ∧
    ∃ seg, seg ∈ segs ∧ r.schema_directory_name = seg.name ∧ docsOK env seg ∧
      seg.key_schema_id = kid ∧ (dv.isSome = true → seg.value_schema_id = vid)

/-- The reconstructed message `o` round-trips message `m`: same key and
value, the key schema document taken at `m`'s key id, and the value
schema document taken at the enclosing segment's value id (equal to
`m`'s value id whenever the value is present). -/
def ReadOK (env : AvroEnv S V J T) (segs : List SegmentInfo) (m : RawMessage)
    (o : KafkaMessage V T) : Prop :=
  ∃ kid dk vid dv, decodeMsg env m = .ok (kid, dk, vid, dv) ∧
    o.key = dk ∧ o.value = dv ∧
    o.key_schema = env.loadSchema (env.jsonDumps (env.originalSchema kid)) ∧
    ∃ seg, seg ∈ segs ∧ seg.key_schema_id = kid ∧
      (dv.isSome = true → seg.value_schema_id = vid) ∧
      o.value_schema = env.loadSchema (env.jsonDumps (env.originalSchema seg.value_schema_id))

/-- The writer state is in sync with the current segment (if any). -/
def StateSeg (env : AvroEnv S V J T) (st : WriterState) (cur : Option SegmentInfo) : Prop :=
  match cur with
  | none => st.schema_dir_name = none
  | some seg =>
      st.schema_dir_name = some seg.name ∧
      st.current_key_schema_id = some seg.key_schema_id ∧
      st.current_value_schema_id = some seg.value_schema_id ∧
      docsOK env seg

theorem schema_changed_false (st : WriterState) (m : DecodedAvroMessage V)
    (h : schema_changed st m = false) :
    st.current_key_schema_id = some m.key_schema_id ∧
      (m.value.isSome = true → st.current_value_schema_id = some m.value_schema_id) := by
  simp only [schema_changed, Bool.or_eq_false_iff, Bool.and_eq_false_iff,
    bne_eq_false_iff_eq, Bool.not_eq_true] at h
  obtain ⟨h1, h2⟩ := h
  refine ⟨h2, fun hv => ?_⟩
  rcases h1 with h1 | h1
  · exact h1
  · rw [hv] at h1; exact absurd h1 (by simp)

theorem RecOK_mono (env : AvroEnv S V J T) (segs1 segs2 : List SegmentInfo)
    (hsub : ∀ s, s ∈ segs1 → s ∈ segs2) (m : RawMessage) (r : ArchiveRecord V)
    (h : RecOK env segs1 m r) : RecOK env segs2 m r := by
  obtain ⟨kid, dk, vid, dv, hdec, hkey, hval, seg, hmem, hdir, hdocs, hkid, hvid⟩ := h
  exact ⟨kid, dk, vid, dv, hdec, hkey, hval, seg, hsub seg hmem, hdir, hdocs, hkid, hvid⟩

theorem runWriterAux_records (env : AvroEnv S V J T) (msgs : List RawMessage) :
    ∀ (st : WriterState) (cur : Option SegmentInfo) (st' : WriterState)
      (segs : List SegmentInfo) (recs : List (ArchiveRecord V)) (tr : List Int),
      StateSeg env st cur →
      runWriterAux env st msgs = .ok (st', segs, recs, tr) →
      List.Forall₂ (RecOK env (cur.toList ++ segs)) msgs recs := by
  induction msgs with
  | nil =>
    intro st cur st' segs recs tr _ hrun
    obtain ⟨-, -, hrecs, -⟩ : st = st' ∧ [] = segs ∧ [] = recs ∧ [] = tr := by
      simpa [runWriterAux] using hrun
    subst hrecs
    exact List.Forall₂.nil
  | cons m ms ih =>
    intro st cur st' segs recs tr hss hrun
    cases hw : write_message_to_file env st m with
    | error e =>
      rw [runWriterAux_cons_error env st m ms e hw] at hrun
      exact absurd hrun (by simp)
    | ok x =>
      obtain ⟨st1, segOpt, rec, tr1⟩ := x
      rw [runWriterAux_cons_eq env st m ms st1 segOpt rec tr1 hw] at hrun
      cases hr : runWriterAux env st1 ms with
      | error e => rw [hr] at hrun; exact absurd hrun (by simp)
      | ok y =>
        obtain ⟨st2, segs2, recs2, trs⟩ := y
        rw [hr] at hrun
        obtain ⟨-, hsegs, hrecs, -⟩ :
            st2 = st' ∧ segOpt.toList ++ segs2 = segs ∧ rec :: recs2 = recs ∧
              tr1 ++ trs = tr := by simpa using hrun
        subst hsegs
        subst hrecs
        obtain ⟨kid, dk, ktr, vid, dv, vtr, hk, hv, hcases⟩ :=
          write_ok_cases env st m st1 segOpt rec tr1 hw
        have hdec := decodeMsg_eq env m kid dk ktr vid dv vtr hk hv
        rcases hcases with ⟨-, hseg, hst1, hrec, -⟩ | ⟨hcond, hseg, hst1, hrec, -⟩
        · -- a new segment was opened
          subst hseg
          subst hst1
          subst hrec
          refine List.Forall₂.cons ?_ ?_
          · refine ⟨kid, dk, vid, dv, hdec, rfl, rfl,
              ⟨segmentName st.schema_version kid vid, st.schema_version, kid, vid,
               env.jsonDumps (env.originalSchema kid), env.jsonDumps (env.originalSchema vid)⟩,
              ?_, ?_, ?_, ?_, ?_⟩
            · simp
            · rfl
            · exact ⟨rfl, rfl⟩
            · rfl
            · exact fun _ => rfl
          · have htail := ih _ (some ⟨segmentName st.schema_version kid vid,
              st.schema_version, kid, vid, env.jsonDumps (env.originalSchema kid),
              env.jsonDumps (env.originalSchema vid)⟩) st2 segs2 recs2 trs
              ⟨rfl, rfl, rfl, rfl, rfl⟩ hr
            refine htail.imp ?_
            intro a b hab
            refine RecOK_mono env _ _ ?_ a b hab
            intro s hs
            simp only [Option.toList_some, List.cons_append, List.nil_append,
              List.mem_cons] at hs
            rcases hs with rfl | hs2
            · exact List.mem_append_right _ (List.mem_cons_self _ _)
            · exact List.mem_append_right _ (List.mem_cons_of_mem _ hs2)
        · -- no new segment: the current one absorbs the record
          cases cur with
          | none =>
            exfalso
            have hdir : st.schema_dir_name = none := hss
            rw [Bool.or_eq_false_iff] at hcond
            rw [hdir] at hcond
            exact absurd hcond.2 (by simp)
          | some seg0 =>
            obtain ⟨hdir, hck, hcv, hdocs⟩ := hss
            subst hseg
            subst hst1
            subst hrec
            rw [Bool.or_eq_false_iff] at hcond
            obtain ⟨hkeq, hveq⟩ := schema_changed_false _ ⟨dk, dv, kid, vid⟩ hcond.1
            refine List.Forall₂.cons ?_ ?_
            · refine ⟨kid, dk, vid, dv, hdec, rfl, rfl, seg0, by simp, ?_, hdocs, ?_, ?_⟩
              · rw [hdir]; rfl
              · have : some seg0.key_schema_id = some kid := by rw [← hck, hkeq]
                simpa using this
              · intro hdv
                have : some seg0.value_schema_id = some vid := by
                  rw [← hcv, hveq hdv]
                simpa using this
            · exact ih _ (some seg0) st2 segs2 recs2 trs ⟨hdir, hck, hcv, hdocs⟩ hr

theorem find?_name_of_pairwise (segs : List SegmentInfo)
    (hd : segs.Pairwise (fun a b => a.name ≠ b.name)) (seg : SegmentInfo)
    (hm : seg ∈ segs) :
    segs.find? (fun s => s.name == seg.name) = some seg := by
  induction segs with
  | nil => cases hm
  | cons a t ih =>
    rcases List.mem_cons.mp hm with rfl | hm2
    · exact List.find?_cons_of_pos _ (by simp)
    · rw [List.find?_cons_of_neg]
      · exact ih (List.pairwise_cons.mp hd).2 hm2
      · simpa using (List.pairwise_cons.mp hd).1 seg hm2

theorem fsOf_name (segs : List SegmentInfo)
    (hd : segs.Pairwise (fun a b => a.name ≠ b.name)) (seg : SegmentInfo)
    (hm : seg ∈ segs) :
    fsOf segs seg.name = some (seg.key_schema_doc, seg.value_schema_doc) := by
  unfold fsOf
  rw [find?_name_of_pairwise segs hd seg hm]
  rfl

theorem run_names_distinct (env : AvroEnv S V J T) (msgs : List RawMessage)
    (st' : WriterState) (segs : List SegmentInfo) (recs : List (ArchiveRecord V))
    (tr : List Int)
    (hrun : runWriterAux env initState msgs = .ok (st', segs, recs, tr)) :
    segs.Pairwise (fun a b => a.name ≠ b.name) := by
  obtain ⟨-, hmap, hnm⟩ :=
    run_segments_structure env msgs initState st' segs recs tr hrun
  have hmap1 : segs.map SegmentInfo.seq = List.range' 1 segs.length := hmap
  have hlt : segs.Pairwise (fun a b => a.seq < b.seq) := by
    have := List.pairwise_lt_range' 1 segs.length
    rw [← hmap1, List.pairwise_map] at this
    exact this
  refine hlt.imp_of_mem ?_
  intro a b ha hb hab he
  rw [hnm a ha, hnm b hb] at he
  have := segmentName_inj_seq a.seq b.seq a.key_schema_id a.value_schema_id
    b.key_schema_id b.value_schema_id he
  omega

theorem readAll_of_recOK (env : AvroEnv S V J T) (segs : List SegmentInfo)
    (hd : segs.Pairwise (fun a b => a.name ≠ b.name))
    (msgs : List RawMessage) (recs : List (ArchiveRecord V))
    (hF : List.Forall₂ (RecOK env segs) msgs recs) :
    ∃ out, readAll env (fsOf segs) recs = .ok out ∧
      List.Forall₂ (ReadOK env segs) msgs out := by
  induction hF with
  | nil => exact ⟨[], rfl, List.Forall₂.nil⟩
  | @cons a b l1 l2 hR hT ih =>
    obtain ⟨out, hread, hout⟩ := ih
    obtain ⟨kid, dk, vid, dv, hdec, hkey, hval, seg, hmem, hdir, hdocs, hkid, hvid⟩ := hR
    refine ⟨⟨b.key, b.value, env.loadSchema seg.key_schema_doc,
      env.loadSchema seg.value_schema_doc⟩ :: out, ?_, ?_⟩
    · rw [readAll_cons, read_from_file_cons]
      simp only [hdir, fsOf_name segs hd seg hmem, hread]
    · refine List.Forall₂.cons ?_ hout
      refine ⟨kid, dk, vid, dv, hdec, hkey, hval, ?_, seg, hmem, hkid, hvid, ?_⟩
      · show env.loadSchema seg.key_schema_doc = _
        rw [hdocs.1, hkid]
      · show env.loadSchema seg.value_schema_doc = _
        rw [hdocs.2]

/-- C4 counterexample: archive a message with schema pair (1, 2) and
then a tombstone of the same key.  Reading back succeeds, but the
tombstone's reconstructed value schema document is the segment's
(id 2), while the record's own originating value schema id is -1 and
the registry document at -1 differs — so the claim's "schema documents
equal what the registry returned for that record's originating schema
ids" fails at the tombstone. -/
theorem round_trip_ctrex :
    ((runWriterAux testEnv initState
        [⟨some [0, 0, 0, 0, 1], some [0, 0, 0, 0, 2]⟩,
         ⟨some [0, 0, 0, 0, 1], none⟩]).map
      (fun r => readAll testEnv (fsOf r.2.1) r.2.2.1)) =
      .ok (.ok [⟨some 100, some 200, "1", "2"⟩, ⟨some 100, none, "1", "2"⟩]) ∧
    decodeMsg testEnv ⟨some [0, 0, 0, 0, 1], none⟩ = .ok (1, some 100, -1, none) ∧
    testEnv.loadSchema (testEnv.jsonDumps (testEnv.originalSchema (-1))) ≠ ("2" : String) :=
  ⟨rfl, rfl, by decide⟩

/-- C4 amended: archiving then reading back yields the same (key,
value) pairs in order; each reconstructed record's key schema document
is the registry document at the record's originating key schema id, and
its value schema document is the registry document at the enclosing
segment's value schema id — which equals the record's originating value
schema id whenever the value is present (tombstones inherit the
segment's value schema). -/
theorem round_trip (env : AvroEnv S V J T) (msgs : List RawMessage)
    (st' : WriterState) (segs : List SegmentInfo) (recs : List (ArchiveRecord V))
    (tr : List Int)
    (hrun : runWriterAux env initState msgs = .ok (st', segs, recs, tr)) :
    ∃ out, readAll env (fsOf segs) recs = .ok out ∧
      List.Forall₂ (ReadOK env segs) msgs out := by
  have hF : List.Forall₂ (RecOK env segs) msgs recs := by
    have := runWriterAux_records env msgs initState none st' segs recs tr rfl hrun
    simpa using this
  exact readAll_of_recOK env segs
    (run_names_distinct env msgs st' segs recs tr hrun) msgs recs hF

/-- Witness for the amended C4: the two-message archive above reads
back successfully. -/
theorem round_trip_witness :
    (readAll testEnv (fsOf [⟨"0001_1_2", 1, 1, 2, "1", "2"⟩])
      [⟨some 100, some 200, "0001_1_2"⟩, ⟨some 100, none, "0001_1_2"⟩]).isOk = true := by
  obtain ⟨out, hread, -⟩ := round_trip testEnv
    [⟨some [0, 0, 0, 0, 1], some [0, 0, 0, 0, 2]⟩, ⟨some [0, 0, 0, 0, 1], none⟩]
    ⟨some 1, some 2, some "0001_1_2", 2⟩
    [⟨"0001_1_2", 1, 1, 2, "1", "2"⟩]
    [⟨some 100, some 200, "0001_1_2"⟩, ⟨some 100, none, "0001_1_2"⟩]
    [1, 2, 1, 2, 1]
    rfl
  rw [hread]
  rfl

end Esque
